import Mathlib

/-!
Verification of the xsoar-client repository: a shallow embedding of the
artifact-provider abstraction, version ordering, reconciliation engine and
deployment pipeline, with theorems checking the specified properties
against the code.
-/

set_option maxHeartbeats 1000000
set_option linter.unnecessarySeqFocus false
set_option linter.unusedVariables false

deriving instance DecidableEq for Except

namespace XsoarClient

/-! ## Version ordering

Embeds the version semantics used by the source through
`max(version_list, key=version.parse)` (from the `packaging` library),
restricted to the dot-numeric version strings the spec calls valid: each
dot-separated segment is a nonempty run of digits parsed as a nonnegative
integer, and keys are compared componentwise, numerically, with missing
trailing components treated as zero (packaging trims trailing zeros of the
release tuple, which is equivalent). A string outside this fragment fails
to parse, modelling the InvalidVersion exception.
-/

/-- Splits a character list on a separator character, as Python split does:
the empty input yields one empty segment. -/
def splitSegsAux (sep : Char) (acc : List Char) : List Char → List (List Char)
  | [] => [acc.reverse]
  | c :: cs =>
    if c = sep then acc.reverse :: splitSegsAux sep [] cs
    else splitSegsAux sep (c :: acc) cs

/-- Dot-splitting of a version string, modelling the segment structure that
packaging version parsing extracts from a dot-numeric release string. -/
def splitSegs (s : String) : List (List Char) :=
  splitSegsAux '.' [] s.toList

/-- Parses one segment: a nonempty run of digits read as a base-10 natural
number. Anything else is rejected (InvalidVersion in the source library). -/
def parseNatSeg (cs : List Char) : Option Nat :=
  if cs = [] then none
  else if cs.all Char.isDigit then
    some (cs.foldl (fun n c => n * 10 + (c.toNat - 48)) 0)
  else none

/-- The parsed version key: the list of numeric components, or `none` when
the string is not a valid dot-numeric version. -/
def parseVersionKey (s : String) : Option (List Nat) :=
  (splitSegs s).mapM parseNatSeg

/-- Numeric comparison of two components, as Python integer comparison. -/
def natCmp (a b : Nat) : Ordering :=
  if a < b then .lt else if b < a then .gt else .eq

/-- Head of a key with missing components read as zero. -/
def headZ : List Nat → Nat
  | [] => 0
  | a :: _ => a

/-- Tail of a key, empty keys staying empty. -/
def tailZ : List Nat → List Nat
  | [] => []
  | _ :: t => t

/-- Comparison of the empty key against a key, the missing components read
as zero: equal exactly when every remaining component is zero. -/
def cmpZeros : List Nat → Ordering
  | [] => .eq
  | b :: bs =>
    match natCmp 0 b with
    | .eq => cmpZeros bs
    | o => o

/-- Componentwise numeric comparison of version keys, shorter keys
zero-padded: the order packaging assigns to plain release tuples. -/
def versionCmpKey : List Nat → List Nat → Ordering
  | [], bs => cmpZeros bs
  | a :: as, [] =>
    match natCmp a 0 with
    | .eq => versionCmpKey as []
    | o => o
  | a :: as, b :: bs =>
    match natCmp a b with
    | .eq => versionCmpKey as bs
    | o => o

/-- Comparison of two version strings: `none` when either fails to parse. -/
def versionCmp (a b : String) : Option Ordering :=
  match parseVersionKey a, parseVersionKey b with
  | some ka, some kb => some (versionCmpKey ka kb)
  | _, _ => none

/-- Errors raised by version selection: max of an empty sequence raises
ValueError (the spec names this condition NoVersionsFound), and the version
key function raises InvalidVersion on a malformed string. -/
inductive VErr where
  | noVersionsFound : VErr
  | malformedVersion : VErr
deriving DecidableEq, Repr

/-- Loop of Python max with a key function: the current best is replaced
only when a later element has a strictly greater key, so the first maximal
element wins; the key function runs on each element in turn and a parse
failure aborts the whole call. -/
def maxByVersionGo (best : String) (kbest : List Nat) : List String → Except VErr String
  | [] => .ok best
  | y :: ys =>
    match parseVersionKey y with
    | none => .error .malformedVersion
    | some ky =>
      if versionCmpKey ky kbest = .gt then maxByVersionGo y ky ys
      else maxByVersionGo best kbest ys

/-- Embeds `max(version_list, key=version.parse)` from the source:
errors on the empty list, otherwise selects the element with the maximal
parsed key, first occurrence winning ties. -/
def maxByVersion : List String → Except VErr String
  | [] => .error .noVersionsFound
  | x :: xs =>
    match parseVersionKey x with
    | none => .error .malformedVersion
    | some kx => maxByVersionGo x kx xs

/-! ### Order lemmas for the version comparison -/

theorem natCmp_self (a : Nat) : natCmp a a = .eq := by
  simp [natCmp]

theorem natCmp_eq_lt {a b : Nat} : natCmp a b = .lt ↔ a < b := by
  unfold natCmp
  split
  · simp_all
  · split <;> simp_all

theorem natCmp_eq_gt {a b : Nat} : natCmp a b = .gt ↔ b < a := by
  unfold natCmp
  split
  · simp_all
    omega
  · split <;> simp_all

theorem natCmp_eq_eq {a b : Nat} : natCmp a b = .eq ↔ a = b := by
  unfold natCmp
  split
  · simp_all
    omega
  · split <;> simp_all <;> omega

/-- The comparison satisfies one step of the zero-padded head/tail
unfolding, uniformly in the shapes of the two keys. -/
theorem versionCmpKey_step (a b : List Nat) :
    versionCmpKey a b =
      match natCmp (headZ a) (headZ b) with
      | .eq => versionCmpKey (tailZ a) (tailZ b)
      | o => o := by
  cases a <;> cases b <;>
    simp [versionCmpKey, cmpZeros, headZ, tailZ, natCmp_self]

theorem versionCmpKey_refl (a : List Nat) : versionCmpKey a a = .eq := by
  induction a with
  | nil => rfl
  | cons x xs ih => simp [versionCmpKey, natCmp_self, ih]

theorem versionCmpKey_le_trans_aux :
    ∀ (n : Nat) (a b c : List Nat), a.length + b.length + c.length ≤ n →
      versionCmpKey a b ≠ .gt → versionCmpKey b c ≠ .gt →
      versionCmpKey a c ≠ .gt := by
  intro n
  induction n with
  | zero =>
    intro a b c hlen _ _
    have ha : a = [] := by cases a <;> simp_all
    have hc : c = [] := by cases c <;> simp_all
    subst ha; subst hc
    simp [versionCmpKey, cmpZeros]
  | succ n ih =>
    intro a b c hlen hab hbc
    by_cases hall : a = [] ∧ b = [] ∧ c = []
    · obtain ⟨ha, hb, hc⟩ := hall
      subst ha; subst hb; subst hc
      simp [versionCmpKey, cmpZeros]
    · rw [versionCmpKey_step a b] at hab
      rw [versionCmpKey_step b c] at hbc
      rw [versionCmpKey_step a c]
      have htails : (tailZ a).length + (tailZ b).length + (tailZ c).length ≤ n := by
        rcases a with _ | ⟨x, xs⟩ <;> rcases b with _ | ⟨y, ys⟩ <;>
          rcases c with _ | ⟨z, zs⟩ <;> simp_all [tailZ] <;> omega
      cases hxy : natCmp (headZ a) (headZ b) with
      | gt => rw [hxy] at hab; exact absurd rfl hab
      | lt =>
        cases hyz : natCmp (headZ b) (headZ c) with
        | gt => rw [hyz] at hbc; exact absurd rfl hbc
        | lt =>
          have : headZ a < headZ c :=
            lt_trans (natCmp_eq_lt.mp hxy) (natCmp_eq_lt.mp hyz)
          rw [natCmp_eq_lt.mpr this]
          simp
        | eq =>
          have : headZ a < headZ c := by
            have := natCmp_eq_lt.mp hxy
            have := natCmp_eq_eq.mp hyz
            omega
          rw [natCmp_eq_lt.mpr this]
          simp
      | eq =>
        rw [hxy] at hab
        cases hyz : natCmp (headZ b) (headZ c) with
        | gt => rw [hyz] at hbc; exact absurd rfl hbc
        | lt =>
          have : headZ a < headZ c := by
            have := natCmp_eq_eq.mp hxy
            have := natCmp_eq_lt.mp hyz
            omega
          rw [natCmp_eq_lt.mpr this]
          simp
        | eq =>
          rw [hyz] at hbc
          have : headZ a = headZ c := by
            have := natCmp_eq_eq.mp hxy
            have := natCmp_eq_eq.mp hyz
            omega
          rw [natCmp_eq_eq.mpr this]
          exact ih (tailZ a) (tailZ b) (tailZ c) htails hab hbc

/-- The version order is transitive in its nonstrict form: a key not
greater than a second, itself not greater than a third, is not greater
than the third. -/
theorem versionCmpKey_le_trans {a b c : List Nat}
    (hab : versionCmpKey a b ≠ .gt) (hbc : versionCmpKey b c ≠ .gt) :
    versionCmpKey a c ≠ .gt :=
  versionCmpKey_le_trans_aux (a.length + b.length + c.length) a b c le_rfl hab hbc

theorem versionCmpKey_swap (a b : List Nat) :
    versionCmpKey a b = (versionCmpKey b a).swap := by
  have key : ∀ (n : Nat) (a b : List Nat), a.length + b.length ≤ n →
      versionCmpKey a b = (versionCmpKey b a).swap := by
    intro n
    induction n with
    | zero =>
      intro a b hlen
      have ha : a = [] := by cases a <;> simp_all
      have hb : b = [] := by cases b <;> simp_all
      subst ha; subst hb; rfl
    | succ n ih =>
      intro a b hlen
      by_cases hall : a = [] ∧ b = []
      · obtain ⟨ha, hb⟩ := hall; subst ha; subst hb; rfl
      · rw [versionCmpKey_step a b, versionCmpKey_step b a]
        have htails : (tailZ a).length + (tailZ b).length ≤ n := by
          rcases a with _ | ⟨x, xs⟩ <;> rcases b with _ | ⟨y, ys⟩ <;>
            simp_all [tailZ] <;> omega
        cases hxy : natCmp (headZ a) (headZ b) with
        | lt =>
          rw [natCmp_eq_gt.mpr (natCmp_eq_lt.mp hxy)]
          rfl
        | gt =>
          rw [natCmp_eq_lt.mpr (natCmp_eq_gt.mp hxy)]
          rfl
        | eq =>
          rw [natCmp_eq_eq.mpr (natCmp_eq_eq.mp hxy).symm]
          exact ih (tailZ a) (tailZ b) htails
  exact key (a.length + b.length) a b le_rfl

theorem versionCmpKey_gt_iff_lt {a b : List Nat} :
    versionCmpKey a b = .gt ↔ versionCmpKey b a = .lt := by
  rw [versionCmpKey_swap a b]
  cases versionCmpKey b a <;> simp [Ordering.swap]

/-! ### Specification of the Python max with a version key -/

/-- The selection loop of Python max with a key: the result is an element
of the candidates, its key dominates the running best and every candidate,
and the whole call succeeds when every key parses. -/
theorem maxByVersionGo_spec :
    ∀ (xs : List String) (best : String) (kbest : List Nat),
      parseVersionKey best = some kbest →
      (∀ s ∈ xs, (parseVersionKey s).isSome) →
      ∃ m km, maxByVersionGo best kbest xs = .ok m ∧
        parseVersionKey m = some km ∧ (m = best ∨ m ∈ xs) ∧
        versionCmpKey kbest km ≠ .gt ∧
        ∀ y ∈ xs, ∀ ky, parseVersionKey y = some ky →
          versionCmpKey ky km ≠ .gt := by
  intro xs
  induction xs with
  | nil =>
    intro best kbest hb _
    refine ⟨best, kbest, rfl, hb, .inl rfl, ?_, by simp⟩
    simp [versionCmpKey_refl]
  | cons y ys ih =>
    intro best kbest hb hall
    obtain ⟨ky, hky⟩ := Option.isSome_iff_exists.mp (hall y (List.mem_cons_self y ys))
    have hallys : ∀ s ∈ ys, (parseVersionKey s).isSome := by
      intro s hs
      exact hall s (List.mem_cons_of_mem y hs)
    by_cases hgt : versionCmpKey ky kbest = .gt
    · obtain ⟨m, km, h1, h2, h3, h4, h5⟩ := ih y ky hky hallys
      refine ⟨m, km, ?_, h2, ?_, ?_, ?_⟩
      · simp only [maxByVersionGo, hky, if_pos hgt]
        exact h1
      · rcases h3 with h3 | h3
        · exact .inr (h3 ▸ List.mem_cons_self y ys)
        · exact .inr (List.mem_cons_of_mem y h3)
      · have hlt : versionCmpKey kbest ky = .lt := versionCmpKey_gt_iff_lt.mp hgt
        exact versionCmpKey_le_trans (by simp [hlt]) h4
      · intro z hz kz hkz
        rcases List.mem_cons.mp hz with hz | hz
        · subst hz
          rw [hky] at hkz
          cases hkz
          exact h4
        · exact h5 z hz kz hkz
    · obtain ⟨m, km, h1, h2, h3, h4, h5⟩ := ih best kbest hb hallys
      refine ⟨m, km, ?_, h2, ?_, h4, ?_⟩
      · simp only [maxByVersionGo, hky, if_neg hgt]
        exact h1
      · rcases h3 with h3 | h3
        · exact .inl h3
        · exact .inr (List.mem_cons_of_mem y h3)
      · intro z hz kz hkz
        rcases List.mem_cons.mp hz with hz | hz
        · subst hz
          rw [hky] at hkz
          cases hkz
          exact versionCmpKey_le_trans hgt h4
        · exact h5 z hz kz hkz

/-- The maximum selection on a nonempty list of parseable versions
succeeds with a member whose key dominates every listed version. -/
theorem maxByVersion_spec (l : List String) (h1 : l ≠ [])
    (h2 : ∀ s ∈ l, (parseVersionKey s).isSome) :
    ∃ m, maxByVersion l = .ok m ∧ m ∈ l ∧
      ∀ y ∈ l, ∀ km ky, parseVersionKey m = some km →
        parseVersionKey y = some ky → versionCmpKey ky km ≠ .gt := by
  rcases l with _ | ⟨x, xs⟩
  · exact absurd rfl h1
  · obtain ⟨kx, hkx⟩ := Option.isSome_iff_exists.mp (h2 x (List.mem_cons_self x xs))
    have hallxs : ∀ s ∈ xs, (parseVersionKey s).isSome := by
      intro s hs
      exact h2 s (List.mem_cons_of_mem x hs)
    obtain ⟨m, km, h1', h2', h3', h4', h5'⟩ := maxByVersionGo_spec xs x kx hkx hallxs
    refine ⟨m, ?_, ?_, ?_⟩
    · simp only [maxByVersion, hkx]
      exact h1'
    · rcases h3' with h3' | h3'
      · exact h3' ▸ List.mem_cons_self x xs
      · exact List.mem_cons_of_mem x h3'
    · intro y hy km' ky hkm' hky'
      rw [h2'] at hkm'
      cases hkm'
      rcases List.mem_cons.mp hy with hy | hy
      · subst hy
        rw [hkx] at hky'
        cases hky'
        exact h4'
      · exact h5' y hy ky hky'

/-! ## Artifact provider operations

Embeds `artifact_providers/base.py`, `artifact_providers/s3.py`,
`artifact_providers/azure.py` and `artifact_provider.py`. The external
storage service is modelled by its observable responses: an existence
probe outcome for a given object key, and the listing of immediate child
version segments under the pack prefix `content/packs/{id}/` (the source
obtains these by listing with a `/` delimiter and splitting each common
prefix at index 3). -/

/-- `BaseArtifactProvider.get_pack_path`: the canonical Pack Key. -/
def get_pack_path (packId packVersion : String) : String :=
  "content/packs/" ++ packId ++ "/" ++ packVersion ++ "/" ++ packId ++ ".zip"

/-- Outcome of one object-existence probe against the storage service. -/
inductive StorageOutcome where
  | found : StorageOutcome
  | notFound : StorageOutcome
  | otherError : StorageOutcome
deriving DecidableEq, Repr

/-- Errors surfaced by the storage layer embedding. -/
inductive StorageErr where
  | transportError : StorageErr
  | runtimeError (msg : String) : StorageErr
deriving DecidableEq, Repr

/-- `S3ArtifactProvider.is_available` (s3.py lines 34-40): the load of the
object at the Pack Key is wrapped in a bare `except Exception` clause
returning False, so every probe failure, not-found or otherwise, maps to
False and nothing escapes. -/
def s3_is_available (probe : String → StorageOutcome)
    (packId packVersion : String) : Except StorageErr Bool :=
  match probe (get_pack_path packId packVersion) with
  | .found => .ok true
  | .notFound => .ok false
  | .otherError => .ok false

/-- `AzureArtifactProvider.is_available` (azure.py lines 44-51): the
property fetch is guarded only by `except ResourceNotFoundError`, so a
not-found probe maps to False while any other failure propagates. -/
def azure_is_available (probe : String → StorageOutcome)
    (packId packVersion : String) : Except StorageErr Bool :=
  match probe (get_pack_path packId packVersion) with
  | .found => .ok true
  | .notFound => .ok false
  | .otherError => .error .transportError

/-- Outcome of the bucket metadata probe in the AWS connection test. -/
inductive AwsProbe where
  | ok : AwsProbe
  | noCredentials : AwsProbe
  | partialCredentials : AwsProbe
  | endpointUnreachable : AwsProbe
  | connectTimeout : AwsProbe
  | otherError : AwsProbe
deriving DecidableEq, Repr

/-- `ArtifactProvider._test_connection_aws` (artifact_provider.py lines
62-81): the four recognized exception types are re-raised as RuntimeError;
the final bare `except Exception` clause only prints, and control falls
through to `return True`. -/
def test_connection_aws : AwsProbe → Except StorageErr Bool
  | .ok => .ok true
  | .noCredentials => .error (.runtimeError "AWS credentials not found.")
  | .partialCredentials => .error (.runtimeError "Incomplete AWS credentials.")
  | .endpointUnreachable => .error (.runtimeError "Could not connect to the S3")
  | .connectTimeout => .error (.runtimeError "Connection timed out")
  | .otherError => .ok true

/-- `S3ArtifactProvider.get_latest_version` (s3.py lines 48-56): lists the
version segments stored under the pack prefix and selects the maximum by
parsed version key; the max of an empty listing raises. -/
def getLatestVersion (store : String → List String) (packId : String) :
    Except VErr String :=
  maxByVersion (store packId)

/-! ## Reconciliation engine

Embeds `Client.get_outdated_packs` (xsoar_client.py lines 295-321) over
the installed-expired snapshot. -/

/-- Installed Pack Record: the fields of the platform snapshot that the
reconciliation loop reads. -/
structure PackRecord where
  id : String
  currentVersion : String
  author : String
  updateAvailable : Bool
  changelog : List String
deriving DecidableEq, Repr

/-- Outdated Pack Report Entry, as built by the loop. -/
structure ReportEntry where
  id : String
  currentVersion : String
  latest : String
  author : String
deriving DecidableEq, Repr

/-- `Client.get_outdated_packs`: for a record whose author is in the
custom-pack-author list, asks the store for the latest version with no
exception handling around the call; the record is emitted exactly when the
returned latest differs from the current version as a string. For other
records it requires the updateAvailable flag and emits the maximum of the
changelog under the version key, with author Upstream. Any exception
aborts the whole call. -/
def getOutdatedPacks (authors : List String) (store : String → List String) :
    List PackRecord → Except VErr (List ReportEntry)
  | [] => .ok []
  | p :: rest =>
    if authors.contains p.author then
      match getLatestVersion store p.id with
      | .error e => .error e
      | .ok latest =>
        if latest = p.currentVersion then
          getOutdatedPacks authors store rest
        else
          match getOutdatedPacks authors store rest with
          | .error e => .error e
          | .ok out => .ok (⟨p.id, p.currentVersion, latest, p.author⟩ :: out)
    else if !p.updateAvailable then
      getOutdatedPacks authors store rest
    else
      match maxByVersion p.changelog with
      | .error e => .error e
      | .ok latest =>
        match getOutdatedPacks authors store rest with
        | .error e => .error e
        | .ok out => .ok (⟨p.id, p.currentVersion, latest, "Upstream"⟩ :: out)

/-! ## Installed-packs cache

Embeds `Client.get_installed_packs` (xsoar_client.py lines 193-207). The
one network request a call may issue is modelled by the response the
server would return to it; the result records how many requests the call
actually issued. -/

/-- An HTTP failure surfaced by raise_for_status. -/
inductive ReqErr where
  | httpError : ReqErr
deriving DecidableEq, Repr

/-- The per-instance state the query reads and writes: the one-shot cache,
None meaning not yet fetched. -/
structure ClientState where
  installed_packs : Option (List PackRecord)
deriving DecidableEq, Repr

/-- Result of one call: the response to the caller, the state after the
call, and the number of network requests the call issued. -/
structure CallResult where
  response : Except ReqErr (List PackRecord)
  state : ClientState
  requests : Nat
deriving DecidableEq, Repr

/-- `Client.get_installed_packs`: when the cache field is None, one
request is issued; a non-2xx answer raises and leaves the cache unset,
a successful answer is stored in the cache and returned. When the cache
holds a value it is returned with no request. -/
def get_installed_packs (fetchResult : Except ReqErr (List PackRecord))
    (st : ClientState) : CallResult :=
  match st.installed_packs with
  | some cached => ⟨.ok cached, st, 0⟩
  | none =>
    match fetchResult with
    | .error e => ⟨.error e, st, 1⟩
    | .ok payload => ⟨.ok payload, { installed_packs := some payload }, 1⟩

/-! ## Deployment pipeline

Embeds `Client.deploy_pack` (xsoar_client.py lines 273-293). The staging
file is `tempfile.NamedTemporaryFile()`, which deletes the file when the
temp object is closed; the function never closes it, by `with`, `finally`
or otherwise. Under CPython reference counting the object is finalized
when its last reference drops: on the normal return that happens as the
frame of the call is destroyed, so the deletion belongs to the call; on a
raise the traceback of the propagating exception keeps the frame, and with
it the temp object and its file, alive past the call, so no deletion event
belongs to the call on either exception path. The filesystem effects of a
call are recorded as an event trace. -/

/-- Filesystem events on the staging file during one deploy call. -/
inductive FsEvent where
  | createTemp : FsEvent
  | writeTemp : FsEvent
  | deleteTemp : FsEvent
deriving DecidableEq, Repr

/-- Outcome of the platform installation entry point
`upload_content_packs`. -/
inductive UploadOutcome where
  | success : UploadOutcome
  | apiException : UploadOutcome
  | otherException : UploadOutcome
deriving DecidableEq, Repr

/-- Errors propagating out of deploy_pack. -/
inductive DeployErr where
  | downloadFailed : DeployErr
  | runtimeError : DeployErr
  | uncaught : DeployErr
deriving DecidableEq, Repr

/-- Observable result of one deploy_pack call: the returned value or
propagated error, the (skip_validation, skip_verify) strings passed to the
installation entry point when it was invoked, and the staging-file event
trace. -/
structure DeployResult where
  result : Except DeployErr Bool
  uploadArgs : Option (String × String)
  fsTrace : List FsEvent
deriving DecidableEq, Repr

/-- `Client.deploy_pack`: downloads the pack bytes (an exception there
propagates before any staging file exists), sets skip_validation and
skip_verify to the string true when custom and the string false otherwise,
writes the bytes to the named temporary file, and calls
upload_content_packs with the file and the two flags; an ApiException is
printed and re-raised as RuntimeError, any other exception propagates
unchanged. The temp object is never closed, so only the normal return
finalizes it within the call and deletes the staging file; on both raise
paths the traceback keeps the temp object alive, the file is still present
when the call ends, and its deletion is deferred past the call. -/
def deploy_pack (packId packVersion : String) (custom : Bool)
    (download : Except DeployErr Unit) (upload : UploadOutcome) : DeployResult :=
  match download with
  | .error e => ⟨.error e, none, []⟩
  | .ok _ =>
    let sv : String := if custom then "true" else "false"
    let skv : String := if custom then "true" else "false"
    match upload with
    | .success =>
      ⟨.ok true, some (sv, skv), [.createTemp, .writeTemp, .deleteTemp]⟩
    | .apiException =>
      ⟨.error .runtimeError, some (sv, skv), [.createTemp, .writeTemp]⟩
    | .otherException =>
      ⟨.error .uncaught, some (sv, skv), [.createTemp, .writeTemp]⟩

/-- Whether the staging file exists after a trace of events. -/
def tempExistsAfter (tr : List FsEvent) : Bool :=
  tr.foldl
    (fun b e =>
      match e with
      | .createTemp => true
      | .writeTemp => b
      | .deleteTemp => false)
    false

/-! ## Claim theorems -/

/-- C1: for the installed-expired record with id P, current version 1.0.0,
author Acme in the custom-author set, updateAvailable false and empty
changelog, get_outdated_packs returns exactly the one entry with latest
1.1.0 when the store holds versions 1.0.0 and 1.1.0 for P, and returns no
entry when the store holds only 1.0.0 so that the latest equals the
current version. -/
theorem get_outdated_packs_custom_scenario :
    getOutdatedPacks ["Acme"] (fun _ => ["1.0.0", "1.1.0"])
        [⟨"P", "1.0.0", "Acme", false, []⟩] =
      .ok [⟨"P", "1.0.0", "1.1.0", "Acme"⟩] ∧
    getOutdatedPacks ["Acme"] (fun _ => ["1.0.0"])
        [⟨"P", "1.0.0", "Acme", false, []⟩] = .ok [] :=
  ⟨rfl, rfl⟩

/-- C2 counterexample: a custom-authored record whose pack has an empty
version listing makes get_outdatedPacks fail with the no-versions error
instead of completing normally with the record skipped: the claimed
diagnose-and-skip behavior does not hold at this input. -/
theorem get_outdated_packs_empty_store_errors :
    getOutdatedPacks ["Acme"] (fun _ => [])
        [⟨"P", "1.0.0", "Acme", false, []⟩] = .error .noVersionsFound :=
  rfl

/-- C2 amended: when a record whose author is in the custom-author set
heads the snapshot and the store lists no versions for its pack id, the
no-versions error propagates out of get_outdated_packs: the call aborts,
skipping nothing and emitting no diagnostic, whatever records follow. -/
theorem get_outdated_packs_error_propagates (authors : List String)
    (store : String → List String) (p : PackRecord) (rest : List PackRecord)
    (h1 : authors.contains p.author = true) (h2 : store p.id = []) :
    getOutdatedPacks authors store (p :: rest) = .error .noVersionsFound := by
  have hlv : getLatestVersion store p.id = .error .noVersionsFound := by
    simp [getLatestVersion, h2, maxByVersion]
  unfold getOutdatedPacks
  rw [h1, if_pos rfl, hlv]

/-- C2 amended, witnessed at a concrete input. -/
theorem get_outdated_packs_error_propagates_witness :
    ((["Acme"] : List String).contains "Acme" = true) ∧
    ((fun _ : String => ([] : List String)) "P" = []) ∧
    getOutdatedPacks ["Acme"] (fun _ => [])
        [⟨"P", "1.0.0", "Acme", true, ["1.0.0"]⟩] = .error .noVersionsFound :=
  ⟨by decide, rfl,
    get_outdated_packs_error_propagates ["Acme"] (fun _ => [])
      ⟨"P", "1.0.0", "Acme", true, ["1.0.0"]⟩ [] (by decide) rfl⟩

/-- C5: get_latest_version fails with the no-versions error on any pack id
whose listing under the pack prefix is empty, and on a pack whose stored
versions are 1.0.0 and 1.1.0 it returns 1.1.0. -/
theorem get_latest_version_spec (store : String → List String)
    (packId : String) (h : store packId = []) :
    getLatestVersion store packId = .error .noVersionsFound ∧
    getLatestVersion (fun _ => ["1.0.0", "1.1.0"]) packId = .ok "1.1.0" := by
  constructor
  · simp [getLatestVersion, h, maxByVersion]
  · rfl

/-- C5, witnessed at a concrete pack id and store. -/
theorem get_latest_version_spec_witness :
    ((fun _ : String => ([] : List String)) "EmptyPack" = []) ∧
    getLatestVersion (fun _ => []) "EmptyPack" = .error .noVersionsFound ∧
    getLatestVersion (fun _ => ["1.0.0", "1.1.0"]) "EmptyPack" = .ok "1.1.0" :=
  ⟨rfl, (get_latest_version_spec (fun _ => []) "EmptyPack" rfl).1,
    (get_latest_version_spec (fun _ => []) "EmptyPack" rfl).2⟩

/-- C10: when the bucket probe of the AWS connection test fails with any
exception other than the four recognized types, the exception is swallowed
after printing and the call still returns True. -/
theorem test_connection_aws_swallows_other :
    test_connection_aws .otherError = .ok true :=
  rfl

/-- C3 counterexample: against the Azure backend, an existence check whose
underlying probe fails with a transport error other than not-found raises
instead of returning false, refuting the claim that is_available never
raises for every storage backend. -/
theorem azure_is_available_raises :
    azure_is_available (fun _ => .otherError) "P" "1.0.0" =
      .error .transportError :=
  rfl

/-- C3 amended: for the S3 backend is_available never raises, mapping
not-found and every other probe failure alike to false; for the Azure
backend only a not-found probe maps to false, while any other failure of
the existence check propagates as an error. -/
theorem is_available_error_mapping (probe : String → StorageOutcome)
    (packId packVersion : String)
    (h : probe (get_pack_path packId packVersion) ≠ .found) :
    s3_is_available probe packId packVersion = .ok false ∧
    (probe (get_pack_path packId packVersion) = .notFound →
      azure_is_available probe packId packVersion = .ok false) ∧
    (probe (get_pack_path packId packVersion) = .otherError →
      azure_is_available probe packId packVersion = .error .transportError) := by
  refine ⟨?_, ?_, ?_⟩
  · unfold s3_is_available
    cases hp : probe (get_pack_path packId packVersion)
    · exact absurd hp h
    · rfl
    · rfl
  · intro hp
    unfold azure_is_available
    rw [hp]
  · intro hp
    unfold azure_is_available
    rw [hp]

/-- C3 amended, witnessed at a concrete probe and pack coordinates. -/
theorem is_available_error_mapping_witness :
    ((fun _ : String => StorageOutcome.notFound) (get_pack_path "P" "1.0.0") ≠
      .found) ∧
    s3_is_available (fun _ => .notFound) "P" "1.0.0" = .ok false ∧
    ((fun _ : String => StorageOutcome.notFound) (get_pack_path "P" "1.0.0") =
        .notFound →
      azure_is_available (fun _ => .notFound) "P" "1.0.0" = .ok false) ∧
    ((fun _ : String => StorageOutcome.notFound) (get_pack_path "P" "1.0.0") =
        .otherError →
      azure_is_available (fun _ => .notFound) "P" "1.0.0" =
        .error .transportError) :=
  ⟨by decide, (is_available_error_mapping (fun _ => .notFound) "P" "1.0.0" (by decide)).1,
    (is_available_error_mapping (fun _ => .notFound) "P" "1.0.0" (by decide)).2.1,
    (is_available_error_mapping (fun _ => .notFound) "P" "1.0.0" (by decide)).2.2⟩

/-- C4: the code contradicts the claimed guaranteed cleanup. The staging
file is never closed by deploy_pack, so only the normal return path
finalizes the temp object within the call: evaluated at the failing input,
a custom deploy of pack P version 1.0.0 whose upload raises an
ApiException re-raises RuntimeError with the staging file still present
after the call, and likewise for any other exception from the entry
point, while the success path does leave the file deleted. -/
theorem deploy_pack_temp_left_on_raise :
    (deploy_pack "P" "1.0.0" true (.ok ()) .apiException).result =
      .error .runtimeError ∧
    tempExistsAfter
      (deploy_pack "P" "1.0.0" true (.ok ()) .apiException).fsTrace = true ∧
    tempExistsAfter
      (deploy_pack "P" "1.0.0" true (.ok ()) .otherException).fsTrace = true ∧
    tempExistsAfter
      (deploy_pack "P" "1.0.0" true (.ok ()) .success).fsTrace = false :=
  ⟨rfl, rfl, rfl, rfl⟩

/-- C6: deploy_pack hands the installation entry point the flag strings
skip_validation and skip_verify both true when custom is true and both
false when custom is false, for every pack id, version and upload
outcome. -/
theorem deploy_pack_flags (packId packVersion : String) (custom : Bool)
    (upload : UploadOutcome) :
    (deploy_pack packId packVersion custom (.ok ()) upload).uploadArgs =
      some (if custom then "true" else "false",
        if custom then "true" else "false") := by
  cases upload <;> rfl

/-- C7: starting from a fresh client whose cache is unset, a first
get_installed_packs call whose fetch succeeds issues one request and
stores the payload; a second call, whatever the network would answer it,
issues no request, returns the cached payload unchanged and leaves the
state untouched, so the two calls issue exactly one request in total. -/
theorem get_installed_packs_cached (l : List PackRecord)
    (f2 : Except ReqErr (List PackRecord)) :
    (get_installed_packs (.ok l) ⟨none⟩).requests +
      (get_installed_packs f2 (get_installed_packs (.ok l) ⟨none⟩).state).requests =
      1 ∧
    (get_installed_packs (.ok l) ⟨none⟩).response = .ok l ∧
    (get_installed_packs f2 (get_installed_packs (.ok l) ⟨none⟩).state).response =
      .ok l ∧
    (get_installed_packs f2 (get_installed_packs (.ok l) ⟨none⟩).state).state =
      (get_installed_packs (.ok l) ⟨none⟩).state :=
  ⟨rfl, rfl, rfl, rfl⟩

/-- C8: the version order used by the latest-version selection is numeric
and componentwise with missing trailing components read as zero, so 1.2.0
sorts below 1.10.0 and 1.2 equals 1.2.0 under padding; on every nonempty
list of valid dot-numeric version strings the selection succeeds with a
member of the list whose key no listed version exceeds, and on the list
1.0.0, 2.3.1, 2.3.0 it selects 2.3.1. -/
theorem version_ordering_max (l : List String) (h1 : l ≠ [])
    (h2 : ∀ s ∈ l, (parseVersionKey s).isSome) :
    versionCmp "1.2.0" "1.10.0" = some .lt ∧
    versionCmp "1.2" "1.2.0" = some .eq ∧
    (∃ m, maxByVersion l = .ok m ∧ m ∈ l ∧
      ∀ y ∈ l, ∀ km ky, parseVersionKey m = some km →
        parseVersionKey y = some ky → versionCmpKey ky km ≠ .gt) ∧
    maxByVersion ["1.0.0", "2.3.1", "2.3.0"] = .ok "2.3.1" :=
  ⟨by decide, by decide, maxByVersion_spec l h1 h2, by decide⟩

/-- C8, witnessed on the concrete example list. -/
theorem version_ordering_max_witness :
    ((["1.0.0", "2.3.1", "2.3.0"] : List String) ≠ []) ∧
    (∀ s ∈ (["1.0.0", "2.3.1", "2.3.0"] : List String),
      (parseVersionKey s).isSome) ∧
    (versionCmp "1.2.0" "1.10.0" = some .lt ∧
      versionCmp "1.2" "1.2.0" = some .eq ∧
      (∃ m, maxByVersion ["1.0.0", "2.3.1", "2.3.0"] = .ok m ∧
        m ∈ (["1.0.0", "2.3.1", "2.3.0"] : List String) ∧
        ∀ y ∈ (["1.0.0", "2.3.1", "2.3.0"] : List String), ∀ km ky,
          parseVersionKey m = some km → parseVersionKey y = some ky →
            versionCmpKey ky km ≠ .gt) ∧
      maxByVersion ["1.0.0", "2.3.1", "2.3.0"] = .ok "2.3.1") :=
  ⟨by decide, by decide,
    version_ordering_max ["1.0.0", "2.3.1", "2.3.0"] (by decide) (by decide)⟩

/-- C9 counterexample: a custom-authored record installed at 2.0.0 whose
store lists only 1.0.0 is emitted with latest 1.0.0, a version strictly
below its current version under the version order, refuting the claim
that every report entry has latest strictly exceeding currentVersion. -/
theorem get_outdated_packs_lower_latest :
    getOutdatedPacks ["Acme"] (fun _ => ["1.0.0"])
        [⟨"P", "2.0.0", "Acme", false, []⟩] =
      .ok [⟨"P", "2.0.0", "1.0.0", "Acme"⟩] ∧
    versionCmp "1.0.0" "2.0.0" = some .lt :=
  ⟨rfl, by decide⟩

/-- C9 amended: every entry of a completed outdated-pack report either
differs from its current version as a string, which is the only check the
custom branch performs, or carries the author Upstream, whose latest is
the changelog maximum and is never checked against the current version;
in neither case need the latest strictly exceed the current version under
the version order. -/
theorem get_outdated_packs_entries_shape (authors : List String)
    (store : String → List String) (packs : List PackRecord)
    (out : List ReportEntry)
    (h : getOutdatedPacks authors store packs = .ok out) :
    ∀ e ∈ out, e.latest ≠ e.currentVersion ∨ e.author = "Upstream" := by
  induction packs generalizing out with
  | nil =>
    simp only [getOutdatedPacks] at h
    cases h
    intro e he
    simp at he
  | cons p rest ih =>
    simp only [getOutdatedPacks] at h
    split at h
    · split at h
      · simp at h
      · split at h
        · exact ih out h
        · split at h
          · simp at h
          · rename_i heq _ _ hrest
            cases h
            intro e he
            rcases List.mem_cons.mp he with he | he
            · subst he
              exact .inl heq
            · exact ih _ hrest e he
    · split at h
      · exact ih out h
      · split at h
        · simp at h
        · split at h
          · simp at h
          · rename_i hrest
            cases h
            intro e he
            rcases List.mem_cons.mp he with he | he
            · subst he
              exact .inr rfl
            · exact ih _ hrest e he

/-- C9 amended, witnessed on the counterexample report. -/
theorem get_outdated_packs_entries_shape_witness :
    getOutdatedPacks ["Acme"] (fun _ => ["1.0.0"])
        [⟨"P", "2.0.0", "Acme", false, []⟩] =
      .ok [⟨"P", "2.0.0", "1.0.0", "Acme"⟩] ∧
    ∀ e ∈ ([⟨"P", "2.0.0", "1.0.0", "Acme"⟩] : List ReportEntry),
      e.latest ≠ e.currentVersion ∨ e.author = "Upstream" :=
  ⟨rfl,
    get_outdated_packs_entries_shape ["Acme"] (fun _ => ["1.0.0"])
      [⟨"P", "2.0.0", "Acme", false, []⟩] [⟨"P", "2.0.0", "1.0.0", "Acme"⟩] rfl⟩

end XsoarClient
